import Mathlib

/-!
Verification development for the BingX market-data streaming client
(`internal/websocket/websocket.go`).

The Go source is shallowly embedded: pure helpers (`parseSymbol`,
`parsePrice`, `dispatch`, `handleMessage`) become Lean functions; the
stateful client (`Connect`, `Close`, `reconnect`, the `listen` loop) is
modelled by explicit state passing over `WsState`, with the observable
transport effects collected into event traces (`Ev`).  Library behaviour
invoked by the source (gzip, `encoding/json`, `fmt.Sscanf`, `uuid.New`)
is modelled as follows:

* gzip decompression is an abstract parameter `decomp : String → Option String`
  (the code never inspects raw bytes except through it);
* `fmt.Sscanf(s, "%f", &f)` is modelled faithfully for its decimal
  fragment by `parsePrice`: the scanner `floatToken` mirrors Go's
  greedy `ss.floatToken` (NaN/Inf prefixes, sign, the `0x` switch,
  digit runs, decimal point, exponent markers `e`/`E`/`p`/`P`), and the
  scanned token is then validated/evaluated like
  `strconv.ParseFloat`/`fmt.convertFloat` over exact rationals.
  Outside the modelled fragment (and irrelevant to every theorem below)
  are: `Inf`/`NaN` tokens, hexadecimal floats, digit-group underscores,
  which Go would accept but `validDecTok` rejects;
* `encoding/json` unmarshalling into `MarketData` is modelled by a small
  JSON parser `jsonUnmarshalMarket` (exact-key field matching; the
  case-insensitive fallback and `\u` escapes of Go are outside the
  modelled fragment and unused on the wire format);
* `uuid.New()` is modelled by an abstract id sequence `ids : Nat → String`
  (the i-th call yields `ids i`); uniqueness of uuids becomes an
  injectivity hypothesis;
* `float64` prices are modelled as exact rationals (`ℚ`).

Transport writes are modelled as succeeding; dial success/failure is an
explicit boolean parameter.
-/

namespace BingXGo

/-- PriceUpdate mirrors the Go struct `PriceUpdate {Type, Symbol string; Price float64}`;
the float is modelled as an exact rational. -/
structure PriceUpdate where
  type : String
  symbol : String
  price : ℚ
  deriving Repr, DecidableEq

/-- Channel mirrors the Go struct `Channel {ID, ReqType, DataType string}` —
the subscribe request wire object. -/
structure Channel where
  id : String
  reqType : String
  dataType : String
  deriving Repr, DecidableEq

/-- MarketData mirrors the Go struct `MarketData {DataType string; Data struct {Price string}}`;
`price` is the nested `Data.Price` (JSON field `p`). -/
structure MarketData where
  dataType : String
  price : String
  deriving Repr, DecidableEq

/-- Diagnostics the client logs for dropped frames (`log.Printf` calls in
`handleMessage` and `dispatch`). -/
inductive Diag where
  | decompressFailed
  | jsonDecodeFailed
  | malformedPrice
  deriving Repr, DecidableEq

/- ===== parseSymbol (websocket.go lines 203-208) ===== -/

/-- Model of `parseSymbol`: `if idx := strings.IndexRune(s, '@'); idx > 0 { return s[:idx] }; return s`.
`IndexRune` returns the index of the first `'@'` or `-1`; since `'@'` is
ASCII, byte indices and character indices agree at and before the first
`'@'`. -/
def parseSymbol (s : String) : String :=
  let l := s.toList
  if '@' ∈ l then
    let idx := l.indexOf '@'
    if 0 < idx then String.mk (l.take idx) else s
  else s

/- ===== parsePrice: model of fmt.Sscanf(s, "%f", &f) (websocket.go lines 210-214) ===== -/

/-- Character class accepted by Go's scan digit loops (`decimalDigits + "_"`). -/
def isScanDigit (c : Char) : Bool := c.isDigit || c = '_'

/-- Hexadecimal scan digits (`hexadecimalDigits + "_"`), used after a `0x` switch. -/
def isHexScanDigit (c : Char) : Bool :=
  c.isDigit || c = '_' ||
  c = 'a' || c = 'b' || c = 'c' || c = 'd' || c = 'e' || c = 'f' ||
  c = 'A' || c = 'B' || c = 'C' || c = 'D' || c = 'E' || c = 'F'

/-- Sign characters accepted by the scanner. -/
def isSignCh (c : Char) : Bool := c = '+' || c = '-'

/-- Exponent markers in decimal scanning mode (`"eEpP"`). -/
def isExpCh (c : Char) : Bool := c = 'e' || c = 'E' || c = 'p' || c = 'P'

/-- Exponent markers in hexadecimal scanning mode (`"pP"`). -/
def isHexExpCh (c : Char) : Bool := c = 'p' || c = 'P'

/-- The characters accepted by `accept("nN")`. -/
def isNCh (c : Char) : Bool := c = 'n' || c = 'N'

/-- The characters accepted by `accept("aA")`. -/
def isACh (c : Char) : Bool := c = 'a' || c = 'A'

/-- The characters accepted by `accept("iI")`. -/
def isICh (c : Char) : Bool := c = 'i' || c = 'I'

/-- The characters accepted by `accept("fF")`. -/
def isFCh (c : Char) : Bool := c = 'f' || c = 'F'

/-- The characters accepted by `accept("xX")` (hexadecimal switch). -/
def isXCh (c : Char) : Bool := c = 'x' || c = 'X'

/-- Blanks skipped by `SkipSpace`. -/
def isBlank (c : Char) : Bool := c = ' ' || c = '\t'

/-- Newline characters, which `Sscanf` refuses to skip. -/
def isNl (c : Char) : Bool := c = '\n' || c = '\r'

/-- Split one leading sign character off a character list, as `s.accept(sign)` does. -/
def splitSignL (l : List Char) : List Char × List Char :=
  match l with
  | c :: r => if isSignCh c then ([c], r) else ([], l)
  | [] => ([], [])

/-- The optional fraction phase: a `'.'` followed by a digit run. -/
def scanFrac (digitP : Char → Bool) (r1 : List Char) : List Char × List Char :=
  match r1 with
  | c :: r' =>
    if c = '.' then (c :: r'.takeWhile digitP, r'.dropWhile digitP)
    else ([], c :: r')
  | [] => ([], [])

/-- The optional exponent phase: a marker in `expP`, an optional sign and
a digit run. -/
def scanExp (digitP expP : Char → Bool) (r2 : List Char) : List Char × List Char :=
  match r2 with
  | c :: r' =>
    if expP c then
      (c :: ((splitSignL r').1 ++ (splitSignL r').2.takeWhile digitP),
        (splitSignL r').2.dropWhile digitP)
    else ([], c :: r')
  | [] => ([], [])

/-- Scan the tail of a number: a digit run, the optional fraction and the
optional exponent part.  This is the common digits/period/exponent suffix
of Go's `ss.floatToken`, parametrised by the digit class and
exponent-marker class in force. -/
def scanNumTail (digitP expP : Char → Bool) (l : List Char) : List Char × List Char :=
  let ds := l.takeWhile digitP
  let r1 := l.dropWhile digitP
  let fr := (scanFrac digitP r1).1
  let r2 := (scanFrac digitP r1).2
  (ds ++ fr ++ (scanExp digitP expP r2).1, (scanExp digitP expP r2).2)

/-- Scan a number body after the optional sign: Go first tries `accept("0")`
then `accept("xX")`; on success the digit and exponent classes switch to
hexadecimal mode, otherwise decimal scanning proceeds (a consumed `'0'` is
re-covered by the decimal digit run). -/
def scanAfterSign (l : List Char) : List Char × List Char :=
  match l with
  | c₀ :: c₁ :: r =>
    if c₀ = '0' && isXCh c₁ then
      let (tl, rr) := scanNumTail isHexScanDigit isHexExpCh r
      (c₀ :: c₁ :: tl, rr)
    else scanNumTail isScanDigit isExpCh (c₀ :: c₁ :: r)
  | l' => scanNumTail isScanDigit isExpCh l'

/-- Scan an optional sign, then try the `Inf` prefix (`accept("iI")`,
`accept("nN")`, `accept("fF")`, returning early on full match and falling
through with the partially consumed characters otherwise), then the number
body. -/
def scanSignInfBody (l : List Char) : List Char × List Char :=
  let sg := (splitSignL l).1
  match (splitSignL l).2 with
  | i₁ :: r₂ =>
    if isICh i₁ then
      match r₂ with
      | n₂ :: r₃ =>
        if isNCh n₂ then
          match r₃ with
          | f₃ :: r₄ =>
            if isFCh f₃ then (sg ++ [i₁, n₂, f₃], r₄)
            else
              let (tl, rr) := scanAfterSign r₃
              (sg ++ [i₁, n₂] ++ tl, rr)
          | [] => (sg ++ [i₁, n₂], [])
        else
          let (tl, rr) := scanAfterSign r₂
          (sg ++ [i₁] ++ tl, rr)
      | [] => (sg ++ [i₁], [])
    else
      let (tl, rr) := scanAfterSign (i₁ :: r₂)
      (sg ++ tl, rr)
  | [] => (sg, [])

/-- Model of Go `ss.floatToken`: first the `NaN` prefix attempt
(`accept("nN")`, `accept("aA")`, `accept("nN")`, early return on full
match, fall-through with partial consumption otherwise), then sign, `Inf`,
and the number body.  Returns the greedily scanned token and the rest of
the input. -/
def floatToken (l : List Char) : List Char × List Char :=
  match l with
  | n₁ :: r₁ =>
    if isNCh n₁ then
      match r₁ with
      | a₂ :: r₂ =>
        if isACh a₂ then
          match r₂ with
          | n₃ :: r₃ =>
            if isNCh n₃ then ([n₁, a₂, n₃], r₃)
            else
              let (tl, rr) := scanSignInfBody r₂
              ([n₁, a₂] ++ tl, rr)
          | [] => ([n₁, a₂], [])
        else
          let (tl, rr) := scanSignInfBody r₁
          ([n₁] ++ tl, rr)
      | [] => ([n₁], [])
    else scanSignInfBody l
  | [] => ([], [])

/-- Model of the leading `s.SkipSpace()` of `Sscanf` with `nlIsSpace = false`:
blanks and tabs are skipped; a newline (or carriage return) is a scan
error because the format string contains none. -/
def skipSpaceScan : List Char → Option (List Char)
  | [] => some []
  | c :: r =>
    if isBlank c then skipSpaceScan r
    else if isNl c then none
    else some (c :: r)

/-- Validity of the exponent tail of a scanned token, as
`strconv.ParseFloat` / `fmt.convertFloat` accept it for decimal numbers:
empty, or a marker `e`/`E` (handled by `ParseFloat`) or `p` (the
decimal-mantissa binary exponent of `fmt.convertFloat`, which looks up
the lowercase `'p'` only — an uppercase `'P'` token is rejected), followed
by an optional sign and at least one digit. -/
def validExpTail : List Char → Bool
  | [] => true
  | c :: r =>
    (c = 'e' || c = 'E' || c = 'p') &&
    (!(splitSignL r).2.isEmpty && (splitSignL r).2.all Char.isDigit)

/-- Validity of a scanned token as a decimal number: optional sign, an
integer digit run and/or a `'.'` plus fraction digit run with at least
one mantissa digit in total, then a valid exponent tail.  (Digit-group
underscores, `Inf`/`NaN` and hexadecimal floats are outside the modelled
fragment and rejected here.) -/
def validAfterInt (ip : List Char) : List Char → Bool
  | [] => !ip.isEmpty
  | c :: r2 =>
    if c = '.' then
      !(ip ++ r2.takeWhile Char.isDigit).isEmpty
        && validExpTail (r2.dropWhile Char.isDigit)
    else !ip.isEmpty && validExpTail (c :: r2)

/-- Validity of a whole scanned token: strip the sign, split the integer
digit run, and validate the remainder. -/
def validDecTok (l : List Char) : Bool :=
  validAfterInt ((splitSignL l).2.takeWhile Char.isDigit)
    ((splitSignL l).2.dropWhile Char.isDigit)

/-- Numeric value of a run of decimal digits. -/
def digitsVal (l : List Char) : ℕ :=
  l.foldl (fun a c => 10 * a + (c.toNat - 48)) 0

/-- Exact rational value of a valid decimal token: signed mantissa
(integer and fraction digits) scaled by `10^k` for an `e`/`E` exponent or
by `2^k` for the lowercase-`p` binary exponent of `fmt.convertFloat`.
The value is assembled as an integer numerator over a natural
denominator and normalised by a single `Rat.divInt`, which keeps the
definition kernel-reducible. -/
def tokValue (l : List Char) : ℚ :=
  let (sg, m) := splitSignL l
  let ip := m.takeWhile Char.isDigit
  let r1 := m.dropWhile Char.isDigit
  let (mnum, mden, r3) : ℕ × ℕ × List Char :=
    match r1 with
    | c :: r2 =>
      if c = '.' then
        let fp := r2.takeWhile Char.isDigit
        (digitsVal ip * 10 ^ fp.length + digitsVal fp, 10 ^ fp.length,
          r2.dropWhile Char.isDigit)
      else (digitsVal ip, 1, c :: r2)
    | [] => (digitsVal ip, 1, r1)
  let (num, den) : ℕ × ℕ :=
    match r3 with
    | c :: r =>
      let (es, ed) := splitSignL r
      let base : ℕ := if c = 'p' then 2 else 10
      if es = ['-'] then (mnum, mden * base ^ digitsVal ed)
      else (mnum * base ^ digitsVal ed, mden)
    | [] => (mnum, mden)
  Rat.divInt (if sg = ['-'] then -(num : ℤ) else (num : ℤ)) (den : ℤ)

/-- Model of `parsePrice`: `fmt.Sscanf(s, "%f", &f)` — skip leading
spaces, greedily scan a float token, then convert it; scan or conversion
failure yields `none` (a non-nil error in Go). -/
def parsePrice (s : String) : Option ℚ :=
  match skipSpaceScan s.toList with
  | none => none
  | some l =>
    let tk := (floatToken l).1
    if validDecTok tk then some (tokValue tk) else none

/-- Whether appending character `c` right after the complete decimal
token `pfx` would make the greedy scanner consume `c` as part of the
token: digits and digit-group underscores always extend; exponent
markers extend a token that has none yet; a decimal point extends a
token with neither point nor exponent; `x`/`X` extend a bare
(possibly signed) `0` into a hexadecimal prefix. -/
def extendsTok (pfx : List Char) (c : Char) : Bool :=
  isScanDigit c ||
  (!pfx.any isExpCh && (isExpCh c || (!pfx.any (fun x => x = '.') && c = '.'))) ||
  ((splitSignL pfx).2 = ['0'] && isXCh c)

/- ===== JSON model: encoding/json unmarshalling into MarketData ===== -/

/-- JSON values. -/
inductive JVal where
  | null
  | bool (b : Bool)
  | num (tok : String)
  | str (s : String)
  | arr (xs : List JVal)
  | obj (fs : List (String × JVal))

/-- JSON inter-token whitespace. -/
def jWs (c : Char) : Bool := c = ' ' || c = '\t' || c = '\n' || c = '\r'

/-- Drop leading JSON whitespace. -/
def skipWs (l : List Char) : List Char := l.dropWhile jWs

/-- Parse a JSON string body after the opening quote.  Basic escapes are
decoded; `\u` escapes are outside the modelled fragment (unused on the
wire format) and rejected; raw control characters are invalid. -/
def parseJStr : Nat → List Char → List Char → Option (String × List Char)
  | 0, _, _ => none
  | fuel + 1, acc, l =>
    match l with
    | [] => none
    | c :: r =>
      if c = '\"' then some (String.mk acc.reverse, r)
      else if c = '\\' then
        match r with
        | e :: r' =>
          if e = '\"' then parseJStr fuel ('\"' :: acc) r'
          else if e = '\\' then parseJStr fuel ('\\' :: acc) r'
          else if e = '/' then parseJStr fuel ('/' :: acc) r'
          else if e = 'n' then parseJStr fuel ('\n' :: acc) r'
          else if e = 't' then parseJStr fuel ('\t' :: acc) r'
          else if e = 'r' then parseJStr fuel ('\r' :: acc) r'
          else if e = 'b' then parseJStr fuel ('\x08' :: acc) r'
          else if e = 'f' then parseJStr fuel ('\x0c' :: acc) r'
          else none
        | [] => none
      else if c.toNat < 32 then none
      else parseJStr fuel (c :: acc) r

/-- Parse a JSON number token: `-? (0 | [1-9][0-9]*) frac? exp?`. -/
def parseJNum (l : List Char) : Option (List Char × List Char) :=
  let (sg, l1) : List Char × List Char :=
    match l with
    | '-' :: r => (['-'], r)
    | _ => ([], l)
  match l1 with
  | c :: r =>
    if ¬ c.isDigit then none
    else
      let (ipart, r1) : List Char × List Char :=
        if c = '0' then (['0'], r)
        else (c :: r.takeWhile Char.isDigit, r.dropWhile Char.isDigit)
      let (fpart, r2) : Option (List Char) × List Char :=
        match r1 with
        | '.' :: r' =>
          let fs := r'.takeWhile Char.isDigit
          if fs.isEmpty then (none, r1) else (some ('.' :: fs), r'.dropWhile Char.isDigit)
        | _ => (some [], r1)
      match fpart with
      | none => none
      | some fp =>
        let (epart, r3) : Option (List Char) × List Char :=
          match r2 with
          | e :: r' =>
            if e = 'e' || e = 'E' then
              let (es, r'') := splitSignL r'
              let ds := r''.takeWhile Char.isDigit
              if ds.isEmpty then (none, r2)
              else (some (e :: (es ++ ds)), r''.dropWhile Char.isDigit)
            else (some [], r2)
          | [] => (some [], r2)
        match epart with
        | none => none
        | some ep => some (sg ++ ipart ++ fp ++ ep, r3)
  | [] => none

mutual

/-- Parse one JSON value (fuelled recursive descent). -/
def parseJV : Nat → List Char → Option (JVal × List Char)
  | 0, _ => none
  | fuel + 1, l =>
    match skipWs l with
    | [] => none
    | c :: r =>
      if c = 'n' then
        match r with
        | 'u' :: 'l' :: 'l' :: r' => some (JVal.null, r')
        | _ => none
      else if c = 't' then
        match r with
        | 'r' :: 'u' :: 'e' :: r' => some (JVal.bool true, r')
        | _ => none
      else if c = 'f' then
        match r with
        | 'a' :: 'l' :: 's' :: 'e' :: r' => some (JVal.bool false, r')
        | _ => none
      else if c = '\"' then
        match parseJStr (r.length + 1) [] r with
        | some (s, r') => some (JVal.str s, r')
        | none => none
      else if c = '\x7b' then
        match skipWs r with
        | '\x7d' :: r' => some (JVal.obj [], r')
        | r' =>
          match parseJObjLoop fuel r' with
          | some (fs, r'') => some (JVal.obj fs, r'')
          | none => none
      else if c = '[' then
        match skipWs r with
        | ']' :: r' => some (JVal.arr [], r')
        | r' =>
          match parseJArrLoop fuel r' with
          | some (vs, r'') => some (JVal.arr vs, r'')
          | none => none
      else
        match parseJNum (c :: r) with
        | some (tok, rest) => some (JVal.num (String.mk tok), rest)
        | none => none

/-- Parse the members of a non-empty JSON array, up to and including `]`. -/
def parseJArrLoop : Nat → List Char → Option (List JVal × List Char)
  | 0, _ => none
  | fuel + 1, l =>
    match parseJV fuel l with
    | some (v, rest) =>
      match skipWs rest with
      | ',' :: r2 =>
        match parseJArrLoop fuel r2 with
        | some (vs, r3) => some (v :: vs, r3)
        | none => none
      | ']' :: r2 => some ([v], r2)
      | _ => none
    | none => none

/-- Parse the members of a non-empty JSON object, up to and including `}`. -/
def parseJObjLoop : Nat → List Char → Option (List (String × JVal) × List Char)
  | 0, _ => none
  | fuel + 1, l =>
    match skipWs l with
    | '\"' :: r =>
      match parseJStr (r.length + 1) [] r with
      | some (k, r1) =>
        match skipWs r1 with
        | ':' :: r2 =>
          match parseJV fuel r2 with
          | some (v, r3) =>
            match skipWs r3 with
            | ',' :: r4 =>
              match parseJObjLoop fuel r4 with
              | some (fs, r5) => some ((k, v) :: fs, r5)
              | none => none
            | '\x7d' :: r4 => some ([(k, v)], r4)
            | _ => none
          | none => none
        | _ => none
      | none => none
    | _ => none

end

/-- Decode the fields of the nested `data` object into `MarketData`
(Go decodes `p` into `Data.Price`; a string is required, `null` leaves
the field unchanged, any other type is an unmarshalling error; unknown
keys are skipped; later duplicates win). -/
def unmarshalDataFields : List (String × JVal) → MarketData → Option MarketData
  | [], m => some m
  | (k, v) :: fs, m =>
    if k = "p" then
      match v with
      | JVal.str s => unmarshalDataFields fs { m with price := s }
      | JVal.null => unmarshalDataFields fs m
      | _ => none
    else unmarshalDataFields fs m

/-- Decode the fields of the top-level object into `MarketData`
(`dataType` must be a string, `data` must be an object, `null` is a
no-op, unknown keys are skipped, type mismatches are errors). -/
def unmarshalMarketFields : List (String × JVal) → MarketData → Option MarketData
  | [], m => some m
  | (k, v) :: fs, m =>
    if k = "dataType" then
      match v with
      | JVal.str s => unmarshalMarketFields fs { m with dataType := s }
      | JVal.null => unmarshalMarketFields fs m
      | _ => none
    else if k = "data" then
      match v with
      | JVal.obj gs =>
        match unmarshalDataFields gs m with
        | some m' => unmarshalMarketFields fs m'
        | none => none
      | JVal.null => unmarshalMarketFields fs m
      | _ => none
    else unmarshalMarketFields fs m

/-- Model of `json.Unmarshal(data, &market)` for the exact-key fragment of
Go's decoder: the payload must be a single JSON value (plus surrounding
whitespace); a top-level `null` leaves the zero value, a top-level object
is field-decoded, and any other top-level value is a type error.
(Go's case-insensitive field fallback and `\u` string escapes are outside
the modelled fragment and unused on the wire format.) -/
def jsonUnmarshalMarket (s : String) : Option MarketData :=
  match parseJV (s.length + 1) s.toList with
  | some (v, rest) =>
    if (skipWs rest).isEmpty then
      match v with
      | JVal.null => some ⟨"", ""⟩
      | JVal.obj fs => unmarshalMarketFields fs ⟨"", ""⟩
      | _ => none
    else none
  | none => none

/- ===== Client state and transport effects ===== -/

/-- Client state: the owned transport handle (`ws.conn`, handles numbered
by generation), whether the `quit` channel has been closed, and the next
fresh handle number.  `tokens` and the callback are immutable after
construction and live in `Config`. -/
structure WsState where
  conn : Option Nat
  quitClosed : Bool
  nextHandle : Nat
  deriving Repr, DecidableEq

/-- Immutable per-client configuration: the channel list, whether a
consumer callback is registered, and the id sequence modelling
`uuid.New()` (the i-th call of a subscribe pass returns `ids i`). -/
structure Config where
  tokens : List String
  hasHandler : Bool
  ids : Nat → String

/-- Payload of an outbound text frame: a marshalled subscribe request or
the literal `Pong` bytes. -/
inductive Payload where
  | sub (c : Channel)
  | pong
  deriving Repr, DecidableEq

/-- Observable transport effects, in program order. -/
inductive Ev where
  | dial (ok : Bool)
  | connStored (h : Nat)
  | spawnListen
  | send (h : Nat) (p : Payload)
  | closeTransport (h : Nat)
  | backoffSleep
  deriving Repr, DecidableEq

/-- Errors returned by `Connect`/`Close`/`subscribeAll`. -/
inductive WsError where
  | connectFailed
  | notConnected
  | closeFailed
  deriving Repr, DecidableEq

/- ===== dispatch (websocket.go lines 171-190) ===== -/

/-- Model of `dispatch`: empty `DataType` or `Data.Price` drops the frame
silently; an unparsable price drops it with a `malformedPrice`
diagnostic (`log.Printf("Invalid price ...")`); otherwise a `PriceUpdate`
is delivered to the handler when one is registered.  The first component
is the update passed to the consumer callback (`none` when nothing is
delivered); the second lists the recorded diagnostics. -/
def dispatch (hasHandler : Bool) (m : MarketData) : Option PriceUpdate × List Diag :=
  if m.dataType = "" || m.price = "" then (none, [])
  else
    match parsePrice m.price with
    | none => (none, [Diag.malformedPrice])
    | some p =>
      if hasHandler then (some ⟨"priceUpdate", parseSymbol m.dataType, p⟩, [])
      else (none, [])

/- ===== handleMessage and sendPong (websocket.go lines 150-169, 216-222) ===== -/

/-- Model of `sendPong`: a `Pong` text frame is written to the current
connection if one is present (the write error is discarded); the result
lists the handles written to. -/
def sendPong (s : WsState) : List Nat :=
  match s.conn with
  | some h => [h]
  | none => []

/-- Outcome of `handleMessage` on one inbound frame: the `Pong` writes
performed, whether `dispatch` was invoked, what the consumer callback
received, and the diagnostics recorded. -/
structure HandleOutcome where
  pongsSent : List Nat
  dispatched : Bool
  callbackOut : Option PriceUpdate
  diags : List Diag
  deriving Repr, DecidableEq

/-- Model of `handleMessage`: gzip-decompress (the abstract `decomp`),
drop undecodable frames with a diagnostic; answer a decompressed `Ping`
with `sendPong` and return; JSON-decode everything else, dropping
undecodable payloads with a diagnostic; forward decoded market data to
`dispatch`. -/
def handleMessage (decomp : String → Option String) (hasHandler : Bool)
    (s : WsState) (raw : String) : HandleOutcome :=
  match decomp raw with
  | none => ⟨[], false, none, [Diag.decompressFailed]⟩
  | some d =>
    if d = "Ping" then ⟨sendPong s, false, none, []⟩
    else
      match jsonUnmarshalMarket d with
      | none => ⟨[], false, none, [Diag.jsonDecodeFailed]⟩
      | some m =>
        let o := dispatch hasHandler m
        ⟨[], true, o.1, o.2⟩

/- ===== subscribeAll (websocket.go lines 80-111) ===== -/

/-- Loop body of `subscribeAll` from index `i`: for each token build a
`Channel` with a fresh id and request type `sub`, fail with
`notConnected` if no connection is present, otherwise write the
marshalled request (writes are modelled as succeeding; `json.Marshal`
of a `Channel` cannot fail).  The inter-send 100 ms sleep has no
observable effect in this model. -/
def subscribeAllGo (ids : Nat → String) (conn : Option Nat) (i : Nat) :
    List String → List Ev × Option WsError
  | [] => ([], none)
  | t :: ts =>
    match conn with
    | none => ([], some WsError.notConnected)
    | some h =>
      let rest := subscribeAllGo ids conn (i + 1) ts
      (Ev.send h (Payload.sub ⟨ids i, "sub", t⟩) :: rest.1, rest.2)

/-- Model of `subscribeAll`: subscribe to every configured token in
order, one request per token. -/
def subscribeAll (cfg : Config) (conn : Option Nat) : List Ev × Option WsError :=
  subscribeAllGo cfg.ids conn 0 cfg.tokens

/- ===== Connect, Close, reconnect, listen (websocket.go lines 63-77, 115-146, 226-256) ===== -/

/-- Model of `Connect`: dial (failure returns `connectFailed` with no
state change); on success store the fresh connection handle, spawn the
listener task, then run `subscribeAll` and return its error. -/
def Connect (cfg : Config) (dialOk : Bool) (s : WsState) :
    WsState × List Ev × Option WsError :=
  if dialOk then
    let h := s.nextHandle
    let s' : WsState := { s with conn := some h, nextHandle := s.nextHandle + 1 }
    let sub := subscribeAll cfg (some h)
    (s', Ev.dial true :: Ev.connStored h :: Ev.spawnListen :: sub.1, sub.2)
  else (s, [Ev.dial false], some WsError.connectFailed)

/-- Model of `Close`: close the `quit` channel unless already closed;
then, if a connection is present, close it (emitting `closeTransport`,
propagating a transport close error given by `closeErr`) and null the
handle.  A second call finds `quit` closed and `conn = none` and does
nothing. -/
def Close (closeErr : Bool) (s : WsState) : WsState × List Ev × Option WsError :=
  let s1 : WsState := { s with quitClosed := true }
  match s.conn with
  | some h =>
    ({ s1 with conn := none }, [Ev.closeTransport h],
      if closeErr then some WsError.closeFailed else none)
  | none => (s1, [], none)

/-- Model of `reconnect`: `ws.Close()` (its error discarded), the fixed
2-second backoff sleep, then a full `Connect()`; a failed re-dial is
only logged. -/
def reconnect (cfg : Config) (dialOk closeErr : Bool) (s : WsState) :
    WsState × List Ev :=
  let c := Close closeErr s
  let k := Connect cfg dialOk c.1
  (k.1, c.2.1 ++ Ev.backoffSleep :: k.2.1)

/-- The checks at the top of each `listen` iteration: capture `ws.conn`,
exit if it is nil, exit if `quit` is closed; otherwise block reading on
the captured handle (returned). -/
def listenGuard (s : WsState) : Option Nat :=
  match s.conn with
  | none => none
  | some h => if s.quitClosed then none else some h

/-- Result of the blocking `conn.ReadMessage()`. -/
inductive ReadResult where
  | frame (raw : String)
  | readErr
  deriving Repr, DecidableEq

/-- What `listen` does once `ReadMessage` returns, given the client state
at that moment (a concurrent `Close` may have changed it since the
guard ran): a read error runs `reconnect` and exits the loop; a frame is
handled and the loop continues.  Returns the new state, the emitted
events, and whether the loop continues. -/
def listenStep (cfg : Config) (decomp : String → Option String)
    (dialOk closeErr : Bool) (s : WsState) (r : ReadResult) :
    WsState × List Ev × Bool :=
  match r with
  | ReadResult.readErr =>
    let rc := reconnect cfg dialOk closeErr s
    (rc.1, rc.2, false)
  | ReadResult.frame raw =>
    let o := handleMessage decomp cfg.hasHandler s raw
    (s, o.pongsSent.map (fun h => Ev.send h Payload.pong), true)

/- ===== Derived observations used by the theorems ===== -/

/-- The subscribe requests carried by a trace, in order. -/
def sentChannels (evs : List Ev) : List Channel :=
  evs.filterMap (fun e =>
    match e with
    | Ev.send _ (Payload.sub c) => some c
    | _ => none)

/-- Whether an event is a subscribe-request write. -/
def isSubSend : Ev → Bool
  | Ev.send _ (Payload.sub _) => true
  | _ => false

/-- Claim C9's ordering property over a trace: the read-loop spawn comes
only after every subscribe-request send. -/
def spawnAfterAllSubs (tr : List Ev) : Prop :=
  ∀ (i j : Fin tr.length),
    tr.get i = Ev.spawnListen → isSubSend (tr.get j) = true → j.val < i.val

/-- Identity decompression, used to instantiate the abstract gzip codec
at concrete inputs. -/
def decompId : String → Option String := fun s => some s

/-- A concrete two-channel configuration used by counterexamples and
witnesses. -/
def cfgEx : Config :=
  ⟨["BTC-USDT@trade", "ETH-USDT@trade"], true, fun n => toString n⟩

/-- A live streaming state: one connection open, shutdown not requested. -/
def sEx : WsState := ⟨some 0, false, 1⟩

/- ===== Helper lemmas ===== -/

/-- Helper: if `a` occurs at index `i` and nowhere earlier, `indexOf` finds `i`. -/
theorem indexOf_of_first (a : Char) (l : List Char) :
    ∀ (i : Nat) (hi : i < l.length),
      l.get ⟨i, hi⟩ = a → a ∉ l.take i → l.indexOf a = i := by
  induction l with
  | nil => intro i hi; simp at hi
  | cons c r ih =>
    intro i hi hget hnot
    cases i with
    | zero =>
      simp at hget
      subst hget
      simp [List.indexOf_cons]
    | succ k =>
      rw [List.take_succ_cons] at hnot
      have hc : ¬ (c == a) = true := by
        simp only [beq_iff_eq]
        intro he
        exact hnot (he ▸ List.mem_cons_self c _)
      have hk : k < r.length := Nat.lt_of_succ_lt_succ hi
      have hget' : r.get ⟨k, hk⟩ = a := hget
      have hnot' : a ∉ r.take k := fun hmem => hnot (List.mem_cons_of_mem _ hmem)
      simp [List.indexOf_cons, hc, ih k hk hget' hnot']

/- ===== Claim theorems ===== -/

/-- C7: for every channel string `s`, `parseSymbol` returns the part of
`s` strictly before the first `'@'` when that first occurrence is at an
index greater than 0, and returns `s` unchanged when `s` has no `'@'` or
its first `'@'` is at index 0. -/
theorem C7_parseSymbol_first_at (s : String) :
    ('@' ∉ s.toList → parseSymbol s = s) ∧
    (∀ i : Fin s.toList.length, s.toList.get i = '@' → '@' ∉ s.toList.take i.val →
      ((0 < i.val → parseSymbol s = String.mk (s.toList.take i.val)) ∧
       (i.val = 0 → parseSymbol s = s))) := by
  constructor
  · intro hno
    have hno' : '@' ∉ s.data := hno
    simp [parseSymbol, String.toList, hno']
  · intro i hget hnot
    have hmem : '@' ∈ s.toList := hget ▸ List.get_mem _ _ _
    have hidx : s.toList.indexOf '@' = i.val :=
      indexOf_of_first '@' s.toList i.val i.isLt hget hnot
    have hmem' : '@' ∈ s.data := hmem
    have hidx' : s.data.indexOf '@' = i.val := hidx
    constructor
    · intro hpos
      simp [parseSymbol, String.toList, hmem', hidx', hpos]
    · intro hz
      simp [parseSymbol, String.toList, hmem', hidx', hz]

/-- C7 witness: the channel `BTC-USDT@trade` has its first `'@'` at
index 8, and the derived symbol is `BTC-USDT`. -/
theorem C7_witness : parseSymbol ("BTC-USDT@trade") = "BTC-USDT" := by
  have h := ((C7_parseSymbol_first_at ("BTC-USDT@trade")).2 ⟨8, by decide⟩
    (by decide) (by decide)).1 (by decide)
  rw [h]
  decide

/-- C8: closing twice in sequence — whatever the transport close of the
first call did — returns no error on the second call, performs no second
transport close, and leaves no live connection (already after the first
call). -/
theorem C8_close_twice (e₁ e₂ : Bool) (s : WsState) :
    (Close e₂ (Close e₁ s).1).2.2 = none ∧
    (Close e₂ (Close e₁ s).1).2.1 = [] ∧
    (Close e₂ (Close e₁ s).1).1.conn = none ∧
    (Close e₁ s).1.conn = none := by
  obtain ⟨c, q, n⟩ := s
  cases c <;> simp [Close]

/-- C5: `dispatch` (with a registered handler) delivers a `PriceUpdate`
exactly when the channel and price text are non-empty and the price text
parses; an empty channel or price text drops the frame with no
diagnostic; a non-empty unparsable price text drops it with exactly a
`malformedPrice` diagnostic; and handling a frame never changes the
connection state. -/
theorem C5_dispatch_rules (m : MarketData) :
    ((dispatch true m).1.isSome = true ↔
      (m.dataType ≠ "" ∧ m.price ≠ "" ∧ (parsePrice m.price).isSome = true)) ∧
    ((m.dataType = "" ∨ m.price = "") → dispatch true m = (none, [])) ∧
    (m.dataType ≠ "" → m.price ≠ "" → parsePrice m.price = none →
      dispatch true m = (none, [Diag.malformedPrice])) ∧
    (∀ (cfg : Config) (decomp : String → Option String) (dOk cErr : Bool)
      (s : WsState) (raw : String),
      (listenStep cfg decomp dOk cErr s (ReadResult.frame raw)).1 = s) := by
  refine ⟨?_, ?_, ?_, ?_⟩
  · by_cases h1 : m.dataType = ""
    · simp [dispatch, h1]
    · by_cases h2 : m.price = ""
      · simp [dispatch, h1, h2]
      · cases hp : parsePrice m.price <;> simp [dispatch, h1, h2, hp]
  · intro h
    rcases h with h | h <;> simp [dispatch, h]
  · intro h1 h2 hp
    simp [dispatch, h1, h2, hp]
  · intro cfg decomp dOk cErr s raw
    rfl

/-- C5 witness: a frame with channel `BTC-USDT@trade` and unparsable
price text `abc` yields no callback and one `malformedPrice`
diagnostic. -/
theorem C5_witness :
    dispatch true ⟨"BTC-USDT@trade", "abc"⟩ = (none, [Diag.malformedPrice]) :=
  (C5_dispatch_rules ⟨"BTC-USDT@trade", "abc"⟩).2.2.1 (by decide) (by decide) (by decide)

/-- C6: a frame whose decompressed payload is the literal `Ping`, handled
while a connection is present, produces exactly one `Pong` write on that
connection, no dispatch, no callback and no diagnostics. -/
theorem C6_ping_gets_one_pong (decomp : String → Option String) (hh : Bool)
    (s : WsState) (raw : String) (h : Nat)
    (hping : decomp raw = some ("Ping")) (hconn : s.conn = some h) :
    handleMessage decomp hh s raw = ⟨[h], false, none, []⟩ := by
  simp [handleMessage, hping, sendPong, hconn]

/-- C6 witness: the concrete `Ping` frame on the live example state. -/
theorem C6_witness :
    handleMessage decompId true sEx ("Ping") = ⟨[0], false, none, []⟩ :=
  C6_ping_gets_one_pong decompId true sEx ("Ping") 0 rfl rfl

/-- Helper: with a live connection the subscribe loop from index `i`
emits one subscribe send per token, in order, with ids `ids i`,
`ids (i+1)`, …, and returns no error. -/
theorem subscribeAllGo_eq (ids : Nat → String) (h : Nat) :
    ∀ (ts : List String) (i : Nat),
      subscribeAllGo ids (some h) i ts
        = ((List.enumFrom i ts).map
            (fun q => Ev.send h (Payload.sub ⟨ids q.1, "sub", q.2⟩)), none) := by
  intro ts
  induction ts with
  | nil => intro i; rfl
  | cons t ts ih =>
    intro i
    simp [subscribeAllGo, List.enumFrom_cons, ih (i + 1)]

/-- Helper: the subscribe requests carried by a list of subscribe sends. -/
theorem sentChannels_map_sub {α : Type} (h : Nat) (g : α → Channel) (l : List α) :
    sentChannels (l.map fun q => Ev.send h (Payload.sub (g q))) = l.map g := by
  induction l with
  | nil => rfl
  | cons x xs ih =>
    simpa [sentChannels, List.filterMap_cons] using ih

/-- C4: with a live connection and an injective id source, the subscribe
phase sends exactly one request per configured token, in list order,
each with the token copied verbatim into its channel field, the literal
request type `sub`, and pairwise distinct ids; no error is returned. -/
theorem C4_subscribe_exactly_n (cfg : Config) (h : Nat)
    (hinj : ∀ i, i < cfg.tokens.length → ∀ j, j < cfg.tokens.length →
      cfg.ids i = cfg.ids j → i = j) :
    (subscribeAll cfg (some h)).2 = none ∧
    (subscribeAll cfg (some h)).1.length = cfg.tokens.length ∧
    sentChannels (subscribeAll cfg (some h)).1
      = cfg.tokens.enum.map (fun q => ⟨cfg.ids q.1, "sub", q.2⟩) ∧
    (sentChannels (subscribeAll cfg (some h)).1).map Channel.dataType = cfg.tokens ∧
    (∀ c ∈ sentChannels (subscribeAll cfg (some h)).1, c.reqType = "sub") ∧
    ((sentChannels (subscribeAll cfg (some h)).1).map Channel.id).Nodup := by
  have he := subscribeAllGo_eq cfg.ids h cfg.tokens 0
  have hsub : subscribeAll cfg (some h)
      = (cfg.tokens.enum.map
          (fun q => Ev.send h (Payload.sub ⟨cfg.ids q.1, "sub", q.2⟩)), none) := he
  have hsent : sentChannels (subscribeAll cfg (some h)).1
      = cfg.tokens.enum.map (fun q => ⟨cfg.ids q.1, "sub", q.2⟩) := by
    rw [hsub]
    exact sentChannels_map_sub h _ _
  refine ⟨by rw [hsub], ?_, hsent, ?_, ?_, ?_⟩
  · rw [hsub]
    simp [List.enum_length]
  · rw [hsent, List.map_map]
    have hc : ∀ q ∈ cfg.tokens.enum,
        (Channel.dataType ∘ fun q => Channel.mk (cfg.ids q.1) ("sub") q.2) q
          = Prod.snd q := fun q _ => rfl
    rw [List.map_congr_left hc, List.enum_map_snd]
  · intro c hc
    rw [hsent] at hc
    rcases List.mem_map.mp hc with ⟨q, _, rfl⟩
    rfl
  · rw [hsent, List.map_map]
    have hc : ∀ q ∈ cfg.tokens.enum,
        (Channel.id ∘ fun q => Channel.mk (cfg.ids q.1) ("sub") q.2) q
          = (cfg.ids ∘ Prod.fst) q := fun q _ => rfl
    rw [List.map_congr_left hc, ← List.map_map, List.enum_map_fst]
    refine List.Nodup.map_on ?_ (List.nodup_range _)
    intro x hx y hy hxy
    exact hinj x (List.mem_range.mp hx) y (List.mem_range.mp hy) hxy

/-- C4 witness: the two-channel example configuration with ids `0`, `1`. -/
theorem C4_witness :
    (subscribeAll cfgEx (some 5)).2 = none ∧
    sentChannels (subscribeAll cfgEx (some 5)).1
      = [⟨"0", "sub", "BTC-USDT@trade"⟩, ⟨"1", "sub", "ETH-USDT@trade"⟩] := by
  have h := C4_subscribe_exactly_n cfgEx 5 (by decide)
  exact ⟨h.1, by rw [h.2.2.1]; decide⟩

/-- C9 counterexample: on a fresh client with one configured channel the
`Connect` trace spawns the read-loop task before the subscribe request is
sent, so the claimed ordering (subscription completes before the read
loop starts) is false. -/
theorem C9_counterexample :
    ¬ spawnAfterAllSubs (Connect cfgEx true ⟨none, false, 0⟩).2.1 := by
  intro hcl
  have h := hcl ⟨2, by decide⟩ ⟨3, by decide⟩
  revert h
  decide

/-- C9 amended: for every successful dial, the `Connect` trace is the
dial, the store of the new handle, the spawn of the read-loop task, and
only then the subscribe sends — i.e. the read loop is started after the
transport is dialed but before (not after) the subscription protocol
runs. -/
theorem C9_amended_spawn_before_subs (cfg : Config) (s : WsState) :
    (Connect cfg true s).2.1
      = Ev.dial true :: Ev.connStored s.nextHandle :: Ev.spawnListen
        :: (subscribeAll cfg (some s.nextHandle)).1 ∧
    (∀ e ∈ (subscribeAll cfg (some s.nextHandle)).1, isSubSend e = true) := by
  constructor
  · simp [Connect]
  · intro e he
    rw [subscribeAll, subscribeAllGo_eq] at he
    rcases List.mem_map.mp he with ⟨q, _, rfl⟩
    rfl

/-- C9 witness: the amended ordering at the concrete example
configuration. -/
theorem C9_witness :
    (Connect cfgEx true ⟨none, false, 0⟩).2.1
      = Ev.dial true :: Ev.connStored 0 :: Ev.spawnListen
        :: (subscribeAll cfgEx (some 0)).1 :=
  (C9_amended_spawn_before_subs cfgEx ⟨none, false, 0⟩).1

/-- C1: the shutdown mark is not permanent in effect — after `Close` (quit
closed, connection nil) a pending read error still drives the loop into
`reconnect`, which sleeps the backoff and re-dials and re-subscribes both
channels: the code performs a reconnect attempt after `Close`, violating
the claim. -/
theorem C1_read_error_after_close_still_reconnects :
    (Close false sEx).1.quitClosed = true ∧
    (Close false sEx).1.conn = none ∧
    listenStep cfgEx decompId true false (Close false sEx).1 ReadResult.readErr
      = (⟨some 1, true, 2⟩,
         [Ev.backoffSleep, Ev.dial true, Ev.connStored 1, Ev.spawnListen,
          Ev.send 1 (Payload.sub ⟨"0", "sub", "BTC-USDT@trade"⟩),
          Ev.send 1 (Payload.sub ⟨"1", "sub", "ETH-USDT@trade"⟩)],
         false) := by
  decide

/-- C2: a read failure (with `Close` never called) does close the failed
connection, re-dial and re-send both subscribe requests in order — but
`reconnect` ran `Close()`, which closed the `quit` channel, so the
reconnected state fails the listen guard: the freshly spawned read loop
exits before reading anything and dispatch never resumes. -/
theorem C2_reconnect_never_resumes_dispatch :
    listenStep cfgEx decompId true false sEx ReadResult.readErr
      = (⟨some 1, true, 2⟩,
         [Ev.closeTransport 0, Ev.backoffSleep, Ev.dial true, Ev.connStored 1,
          Ev.spawnListen,
          Ev.send 1 (Payload.sub ⟨"0", "sub", "BTC-USDT@trade"⟩),
          Ev.send 1 (Payload.sub ⟨"1", "sub", "ETH-USDT@trade"⟩)],
         false) ∧
    listenGuard ⟨some 1, true, 2⟩ = none := by
  decide

/-- C3 counterexample: the decompressed payload `hello` is neither `Ping`
nor `Pong`, yet it is not forwarded to the dispatcher (its JSON decode
fails), refuting the claim that every non-control payload is forwarded. -/
theorem C3_counterexample :
    ¬ (∀ d : String, d ≠ "Ping" → d ≠ "Pong" →
        (handleMessage decompId true sEx d).dispatched = true) := by
  intro hcl
  have h := hcl ("hello") (by decide) (by decide)
  revert h
  decide

/-- C3 amended: the control check runs only on the decompressed payload
(frames with equal decompressed payloads are handled identically), the
only specially recognised control payload is the literal `Ping` (answered
and never dispatched); every other payload — `Pong` included — is
forwarded to the dispatcher exactly when it JSON-decodes as market data,
and `Pong` itself fails that decode (so it is dropped with a decode
diagnostic, not recognised as a control frame). -/
theorem C3_amended_control_after_decode (decomp : String → Option String)
    (hh : Bool) (s : WsState) (raw raw' : String) (d : String) :
    (decomp raw = decomp raw' →
      handleMessage decomp hh s raw = handleMessage decomp hh s raw') ∧
    (decomp raw = some ("Ping") →
      (handleMessage decomp hh s raw).dispatched = false ∧
      (handleMessage decomp hh s raw).callbackOut = none) ∧
    (decomp raw = some d → d ≠ "Ping" →
      ((handleMessage decomp hh s raw).dispatched = true ↔
        (jsonUnmarshalMarket d).isSome = true)) ∧
    jsonUnmarshalMarket ("Pong") = none := by
  refine ⟨?_, ?_, ?_, by decide⟩
  · intro he
    simp [handleMessage, he]
  · intro hp
    simp [handleMessage, hp]
  · intro hd hne
    simp only [handleMessage, hd]
    simp only [hne, if_false]
    cases hj : jsonUnmarshalMarket d <;> simp [hj]

/-- C3 witness: a decompressed `Ping` is not dispatched and produces no
callback. -/
theorem C3_witness :
    (handleMessage decompId true sEx ("Ping")).dispatched = false ∧
    (handleMessage decompId true sEx ("Ping")).callbackOut = none :=
  (C3_amended_control_after_decode decompId true sEx ("Ping") ("Ping") ("x")).2.1 rfl

/- ===== Helper lemmas for the float scanner (claim C10) ===== -/

/-- Helper: `takeWhile`/`dropWhile` split exactly at a prepared boundary. -/
theorem takeWhile_append_exact (P : Char → Bool) :
    ∀ (ds r : List Char), ds.all P = true →
      (r.head?.all fun c => !P c) = true →
      (ds ++ r).takeWhile P = ds ∧ (ds ++ r).dropWhile P = r := by
  intro ds
  induction ds with
  | nil =>
    intro r _ hr
    cases r with
    | nil => exact ⟨rfl, rfl⟩
    | cons c r' =>
      have hc : P c = false := by simpa using hr
      simp [List.takeWhile_cons, List.dropWhile_cons, hc]
  | cons d ds ih =>
    intro r hds hr
    rw [List.all_cons, Bool.and_eq_true] at hds
    have h2 := ih r hds.2 hr
    simp [List.takeWhile_cons, List.dropWhile_cons, hds.1, h2.1, h2.2]

/-- Helper: monotonicity of `List.all`. -/
theorem all_mono {P Q : Char → Bool} (h : ∀ c, P c = true → Q c = true) :
    ∀ l : List Char, l.all P = true → l.all Q = true := by
  intro l hl
  rw [List.all_eq_true] at hl ⊢
  exact fun c hc => h c (hl c hc)

/-- Helper: a list of `P`-characters has no `Q`-character when `P`
excludes `Q`. -/
theorem any_eq_false_of_all_not {P Q : Char → Bool} (h : ∀ c, P c = true → Q c = false) :
    ∀ l : List Char, l.all P = true → l.any Q = false := by
  intro l hl
  rw [List.all_eq_true] at hl
  rw [List.any_eq_false]
  intro c hc
  simp [h c (hl c hc)]

/-- Helper: a digit differs from every non-digit character. -/
theorem ne_of_digit (c d : Char) (h : c.isDigit = true) (hd : d.isDigit = false) :
    c ≠ d := by
  intro he
  rw [he, hd] at h
  exact Bool.noConfusion h

/-- Character-class facts about decimal digits. -/
theorem digit_classes (c : Char) (h : c.isDigit = true) :
    isScanDigit c = true ∧ isNCh c = false ∧ isICh c = false ∧
    isSignCh c = false ∧ isXCh c = false ∧ isExpCh c = false ∧
    isBlank c = false ∧ isNl c = false ∧ c ≠ '.' := by
  have hn := ne_of_digit c 'n' h (by decide)
  have hN := ne_of_digit c 'N' h (by decide)
  have hi := ne_of_digit c 'i' h (by decide)
  have hI := ne_of_digit c 'I' h (by decide)
  have hpl := ne_of_digit c '+' h (by decide)
  have hmi := ne_of_digit c '-' h (by decide)
  have hx := ne_of_digit c 'x' h (by decide)
  have hX := ne_of_digit c 'X' h (by decide)
  have he := ne_of_digit c 'e' h (by decide)
  have hE := ne_of_digit c 'E' h (by decide)
  have hp := ne_of_digit c 'p' h (by decide)
  have hP := ne_of_digit c 'P' h (by decide)
  have hsp := ne_of_digit c ' ' h (by decide)
  have htb := ne_of_digit c '\t' h (by decide)
  have hnl := ne_of_digit c '\n' h (by decide)
  have hcr := ne_of_digit c '\r' h (by decide)
  have hdot := ne_of_digit c '.' h (by decide)
  exact ⟨by simp [isScanDigit, h], by simp [isNCh, hn, hN], by simp [isICh, hi, hI],
    by simp [isSignCh, hpl, hmi], by simp [isXCh, hx, hX],
    by simp [isExpCh, he, hE, hp, hP], by simp [isBlank, hsp, htb],
    by simp [isNl, hnl, hcr], hdot⟩

/-- Character-class facts about the decimal exponent markers. -/
theorem expCh_classes (c : Char) (h : isExpCh c = true) :
    isScanDigit c = false ∧ c ≠ '.' ∧ c ≠ '0' ∧ isXCh c = false ∧
    isSignCh c = false ∧ isNCh c = false ∧ isICh c = false ∧
    isBlank c = false ∧ isNl c = false := by
  have h4 : ((c = 'e' ∨ c = 'E') ∨ c = 'p') ∨ c = 'P' := by simpa [isExpCh] using h
  rcases h4 with ((rfl | rfl) | rfl) | rfl <;>
    exact ⟨by decide, by decide, by decide, by decide, by decide, by decide,
      by decide, by decide, by decide⟩

/-- Character-class facts about sign characters. -/
theorem signCh_classes (c : Char) (h : isSignCh c = true) :
    isNCh c = false ∧ isICh c = false ∧ isBlank c = false ∧ isNl c = false ∧
    c.isDigit = false ∧ c ≠ '.' ∧ isExpCh c = false ∧ isScanDigit c = false := by
  have h2 : c = '+' ∨ c = '-' := by simpa [isSignCh] using h
  rcases h2 with rfl | rfl <;>
    exact ⟨by decide, by decide, by decide, by decide, by decide, by decide,
      by decide, by decide⟩

/-- Helper: `splitSignL` on a cons cell. -/
theorem splitSignL_cons (x : Char) (xs : List Char) :
    splitSignL (x :: xs) = if isSignCh x then ([x], xs) else ([], x :: xs) := rfl

/-- Helper: `splitSignL` recombines to the input and yields an optional
sign. -/
theorem splitSignL_spec (l : List Char) :
    (splitSignL l).1 ++ (splitSignL l).2 = l ∧
    ((splitSignL l).1 = [] ∨ ∃ sc, (splitSignL l).1 = [sc] ∧ isSignCh sc = true) := by
  cases l with
  | nil => exact ⟨rfl, Or.inl rfl⟩
  | cons c r =>
    by_cases h : isSignCh c = true
    · rw [splitSignL_cons, if_pos h]
      exact ⟨rfl, Or.inr ⟨c, rfl, h⟩⟩
    · rw [splitSignL_cons, if_neg h]
      exact ⟨rfl, Or.inl rfl⟩

/-- Helper: `splitSignL` splits exactly a prepared optional sign. -/
theorem splitSignL_exact (sg m : List Char)
    (hsg : sg = [] ∨ ∃ sc, sg = [sc] ∧ isSignCh sc = true)
    (hm : (m.head?.all fun c => !isSignCh c) = true) :
    splitSignL (sg ++ m) = (sg, m) := by
  rcases hsg with rfl | ⟨sc, rfl, hsc⟩
  · cases m with
    | nil => rfl
    | cons c r =>
      have hc : isSignCh c = false := by simpa using hm
      simp [splitSignL_cons, hc]
  · simp [splitSignL_cons, hsc]

/-- Helper: a head satisfying the complement passes a `head?.all` test. -/
theorem head_all_cons (P : Char → Bool) (c : Char) (r : List Char) (h : P c = false) :
    ((c :: r).head?.all fun x => !P x) = true := by simp [h]

/-- Helper: the fraction phase on a prepared `'.'`-fraction. -/
theorem scanFrac_dot (digitP : Char → Bool) (fp r : List Char)
    (hfp : fp.all digitP = true) (hr : (r.head?.all fun c => !digitP c) = true) :
    scanFrac digitP (('.' :: fp) ++ r) = ('.' :: fp, r) := by
  have h := takeWhile_append_exact digitP fp r hfp hr
  simp [scanFrac, h.1, h.2]

/-- Helper: the fraction phase is skipped when no `'.'` follows. -/
theorem scanFrac_none (digitP : Char → Bool) (r : List Char)
    (hr : ∀ c r', r = c :: r' → c ≠ '.') :
    scanFrac digitP r = ([], r) := by
  cases r with
  | nil => rfl
  | cons c r' => simp [scanFrac, hr c r' rfl]

/-- Helper: the exponent phase on a prepared marker, sign and digit run. -/
theorem scanExp_marker (digitP expP : Char → Bool) (mk : Char) (es ed r : List Char)
    (hmk : expP mk = true)
    (hes : es = [] ∨ ∃ sc, es = [sc] ∧ isSignCh sc = true)
    (hh : ((ed ++ r).head?.all fun c => !isSignCh c) = true)
    (hed : ed.all digitP = true)
    (hr : (r.head?.all fun c => !digitP c) = true) :
    scanExp digitP expP ((mk :: (es ++ ed)) ++ r) = (mk :: (es ++ ed), r) := by
  have hsplit := splitSignL_exact es (ed ++ r) hes hh
  have htw := takeWhile_append_exact digitP ed r hed hr
  simp [scanExp, hmk, List.append_assoc, hsplit, htw.1, htw.2]

/-- Helper: the exponent phase is skipped when no marker follows. -/
theorem scanExp_none (digitP expP : Char → Bool) (r : List Char)
    (hr : ∀ c r', r = c :: r' → expP c = false) :
    scanExp digitP expP r = ([], r) := by
  cases r with
  | nil => rfl
  | cons c r' => simp [scanExp, hr c r' rfl]

/-- Corollary of `digit_classes`: digits are scan digits. -/
theorem digit_scan (c : Char) (h : c.isDigit = true) : isScanDigit c = true :=
  (digit_classes c h).1

/-- Corollary of `digit_classes`: digits are not `n`/`N`. -/
theorem digit_not_n (c : Char) (h : c.isDigit = true) : isNCh c = false :=
  (digit_classes c h).2.1

/-- Corollary of `digit_classes`: digits are not `i`/`I`. -/
theorem digit_not_i (c : Char) (h : c.isDigit = true) : isICh c = false :=
  (digit_classes c h).2.2.1

/-- Corollary of `digit_classes`: digits are not signs. -/
theorem digit_not_sign (c : Char) (h : c.isDigit = true) : isSignCh c = false :=
  (digit_classes c h).2.2.2.1

/-- Corollary of `digit_classes`: digits are not `x`/`X`. -/
theorem digit_not_x (c : Char) (h : c.isDigit = true) : isXCh c = false :=
  (digit_classes c h).2.2.2.2.1

/-- Corollary of `digit_classes`: digits are not exponent markers. -/
theorem digit_not_exp (c : Char) (h : c.isDigit = true) : isExpCh c = false :=
  (digit_classes c h).2.2.2.2.2.1

/-- Corollary of `digit_classes`: digits are not blanks. -/
theorem digit_not_blank (c : Char) (h : c.isDigit = true) : isBlank c = false :=
  (digit_classes c h).2.2.2.2.2.2.1

/-- Corollary of `digit_classes`: digits are not newlines. -/
theorem digit_not_nl (c : Char) (h : c.isDigit = true) : isNl c = false :=
  (digit_classes c h).2.2.2.2.2.2.2.1

/-- Corollary of `digit_classes`: digits are not the decimal point. -/
theorem digit_not_dot (c : Char) (h : c.isDigit = true) : c ≠ '.' :=
  (digit_classes c h).2.2.2.2.2.2.2.2

/-- Corollary of `expCh_classes`: markers are not scan digits. -/
theorem exp_not_scan (c : Char) (h : isExpCh c = true) : isScanDigit c = false :=
  (expCh_classes c h).1

/-- Corollary of `expCh_classes`: markers are not the decimal point. -/
theorem exp_not_dot (c : Char) (h : isExpCh c = true) : c ≠ '.' :=
  (expCh_classes c h).2.1

/-- Corollary of `expCh_classes`: markers are not `x`/`X`. -/
theorem exp_not_x (c : Char) (h : isExpCh c = true) : isXCh c = false :=
  (expCh_classes c h).2.2.2.1

/-- Corollary of `signCh_classes`: signs are not `n`/`N`. -/
theorem sign_not_n (c : Char) (h : isSignCh c = true) : isNCh c = false :=
  (signCh_classes c h).1

/-- Corollary of `signCh_classes`: signs are not blanks. -/
theorem sign_not_blank (c : Char) (h : isSignCh c = true) : isBlank c = false :=
  (signCh_classes c h).2.2.1

/-- Corollary of `signCh_classes`: signs are not newlines. -/
theorem sign_not_nl (c : Char) (h : isSignCh c = true) : isNl c = false :=
  (signCh_classes c h).2.2.2.1

/-- Corollary of `signCh_classes`: signs are not the decimal point. -/
theorem sign_not_dot (c : Char) (h : isSignCh c = true) : c ≠ '.' :=
  (signCh_classes c h).2.2.2.2.2.1

/-- Corollary of `signCh_classes`: signs are not exponent markers. -/
theorem sign_not_exp (c : Char) (h : isSignCh c = true) : isExpCh c = false :=
  (signCh_classes c h).2.2.2.2.2.2.1

/-- Helper: extracting the scan-digit component of a non-extension. -/
theorem extendsTok_elim1 (pfx : List Char) (c : Char)
    (h : extendsTok pfx c = false) : isScanDigit c = false := by
  simp only [extendsTok, Bool.or_eq_false_iff] at h
  exact h.1.1

/-- Helper: extracting the exponent-marker component of a non-extension. -/
theorem extendsTok_elim2 (pfx : List Char) (c : Char)
    (h : extendsTok pfx c = false) (hne : pfx.any isExpCh = false) :
    isExpCh c = false := by
  simp only [extendsTok, Bool.or_eq_false_iff] at h
  have h2 := h.1.2
  rw [hne] at h2
  simp only [Bool.not_false, Bool.true_and, Bool.or_eq_false_iff] at h2
  exact h2.1

/-- Helper: extracting the decimal-point component of a non-extension. -/
theorem extendsTok_elim3 (pfx : List Char) (c : Char)
    (h : extendsTok pfx c = false) (hne : pfx.any isExpCh = false)
    (hnd : pfx.any (fun x => x = '.') = false) : c ≠ '.' := by
  simp only [extendsTok, Bool.or_eq_false_iff] at h
  have h2 := h.1.2
  rw [hne, hnd] at h2
  simp only [Bool.not_false, Bool.true_and, Bool.or_eq_false_iff] at h2
  intro hc
  rw [hc] at h2
  simp at h2

/-- Helper: extracting the hexadecimal-switch component of a
non-extension. -/
theorem extendsTok_elim4 (pfx : List Char) (c : Char)
    (h : extendsTok pfx c = false) (h0 : (splitSignL pfx).2 = ['0']) :
    isXCh c = false := by
  simp only [extendsTok, Bool.or_eq_false_iff] at h
  have h3 := h.2
  rw [h0] at h3
  simpa using h3

/-- Helper: `takeWhile` keeps only satisfying characters. -/
theorem all_takeWhile_self (P : Char → Bool) :
    ∀ l : List Char, ((l.takeWhile P).all P) = true := by
  intro l
  induction l with
  | nil => rfl
  | cons c r ih =>
    rw [List.takeWhile_cons]
    by_cases h : P c = true
    · simp [h, ih]
    · simp [h]

/-- Helper: on a prepared decimal token body followed by a non-extending
tail, the digit/fraction/exponent phases consume exactly the body. -/
theorem scanNumTail_exact (ip dp ep tl : List Char)
    (hip : ip.all Char.isDigit = true)
    (hdp : (dp = [] ∧ ip ≠ []) ∨ ∃ fp, dp = '.' :: fp ∧ fp.all Char.isDigit = true)
    (hep : ep = [] ∨ ∃ mk es ed, ep = mk :: (es ++ ed) ∧ isExpCh mk = true ∧
      (es = [] ∨ ∃ sc, es = [sc] ∧ isSignCh sc = true) ∧
      ed ≠ [] ∧ ed.all Char.isDigit = true)
    (htl1 : (tl.head?.all fun c => !isScanDigit c) = true)
    (htl2 : ep = [] → (tl.head?.all fun c => !isExpCh c) = true)
    (htl3 : ep = [] → dp = [] → ∀ c r', tl = c :: r' → c ≠ '.') :
    scanNumTail isScanDigit isExpCh (ip ++ (dp ++ (ep ++ tl))) = (ip ++ (dp ++ ep), tl) := by
  have hipscan : ip.all isScanDigit = true := all_mono digit_scan ip hip
  have hbd2 : ((ep ++ tl).head?.all fun c => !isScanDigit c) = true := by
    rcases hep with rfl | ⟨mk, es, ed, rfl, hmk, hes, hne, hed⟩
    · simpa using htl1
    · simpa [List.cons_append] using
        head_all_cons isScanDigit mk ((es ++ ed) ++ tl) (exp_not_scan mk hmk)
  have hbd1 : ((dp ++ (ep ++ tl)).head?.all fun c => !isScanDigit c) = true := by
    rcases hdp with ⟨rfl, -⟩ | ⟨fp, rfl, hfp⟩
    · simpa using hbd2
    · simpa [List.cons_append] using
        head_all_cons isScanDigit '.' (fp ++ (ep ++ tl)) (by decide)
  have h1 := takeWhile_append_exact isScanDigit ip (dp ++ (ep ++ tl)) hipscan hbd1
  have h2 : scanFrac isScanDigit (dp ++ (ep ++ tl)) = (dp, ep ++ tl) := by
    rcases hdp with ⟨rfl, -⟩ | ⟨fp, rfl, hfp⟩
    · refine scanFrac_none _ _ ?_
      intro c r' hc
      rcases hep with rfl | ⟨mk, es, ed, rfl, hmk, hes, hne', hed⟩
      · exact htl3 rfl rfl c r' (by simpa using hc)
      · simp only [List.nil_append, List.cons_append] at hc
        obtain ⟨h1c, -⟩ := List.cons.inj hc
        exact h1c ▸ exp_not_dot mk hmk
    · have hfps : fp.all isScanDigit = true := all_mono digit_scan fp hfp
      have hd := scanFrac_dot isScanDigit fp (ep ++ tl) hfps hbd2
      simpa [List.cons_append, List.append_assoc] using hd
  have h3 : scanExp isScanDigit isExpCh (ep ++ tl) = (ep, tl) := by
    rcases hep with rfl | ⟨mk, es, ed, rfl, hmk, hes, hne, hed⟩
    · refine scanExp_none _ _ _ ?_
      intro c r' hc
      have h' := htl2 rfl
      rw [show tl = c :: r' from by simpa using hc] at h'
      simpa using h'
    · have hh : ((ed ++ tl).head?.all fun c => !isSignCh c) = true := by
        rcases ed with _ | ⟨d, ed'⟩
        · exact absurd rfl hne
        · have hd : d.isDigit = true := by
            rw [List.all_cons, Bool.and_eq_true] at hed
            exact hed.1
          simpa [List.cons_append] using
            head_all_cons isSignCh d (ed' ++ tl) (digit_not_sign d hd)
      have heds : ed.all isScanDigit = true := all_mono digit_scan ed hed
      have hs := scanExp_marker isScanDigit isExpCh mk es ed tl hmk hes hh heds htl1
      simpa [List.append_assoc] using hs
  simp only [scanNumTail]
  rw [h1.1, h1.2]
  simp [h2, h3, List.append_assoc]

/-- Helper: the head of a valid token body is a digit or the decimal
point. -/
theorem anatomy_body_head (ip dp ep : List Char)
    (hip : ip.all Char.isDigit = true)
    (hdp : (dp = [] ∧ ip ≠ []) ∨ ∃ fp, dp = '.' :: fp ∧ fp.all Char.isDigit = true) :
    ∃ c r, ip ++ (dp ++ ep) = c :: r ∧ (c.isDigit = true ∨ c = '.') := by
  cases ip with
  | cons i ir =>
    have hd : i.isDigit = true := by
      rw [List.all_cons, Bool.and_eq_true] at hip
      exact hip.1
    exact ⟨i, ir ++ (dp ++ ep), by simp, Or.inl hd⟩
  | nil =>
    rcases hdp with ⟨-, hne⟩ | ⟨fp, rfl, -⟩
    · exact absurd rfl hne
    · exact ⟨'.', fp ++ ep, by simp, Or.inr rfl⟩

/-- Helper: anatomy of a valid exponent tail. -/
theorem validExpTail_anatomy (r : List Char) (hv : validExpTail r = true) :
    r = [] ∨ ∃ mk es ed, r = mk :: (es ++ ed) ∧ isExpCh mk = true ∧
      (es = [] ∨ ∃ sc, es = [sc] ∧ isSignCh sc = true) ∧
      ed ≠ [] ∧ ed.all Char.isDigit = true := by
  cases r with
  | nil => exact Or.inl rfl
  | cons c rr =>
    right
    simp only [validExpTail, Bool.and_eq_true] at hv
    have hm3 : (c = 'e' ∨ c = 'E') ∨ c = 'p' := by simpa using hv.1
    have hmk : isExpCh c = true := by
      rcases hm3 with (rfl | rfl) | rfl <;> decide
    obtain ⟨hrec, hsg⟩ := splitSignL_spec rr
    refine ⟨c, (splitSignL rr).1, (splitSignL rr).2, by rw [hrec], hmk, hsg, ?_,
      hv.2.2⟩
    intro hnil
    have hne := hv.2.1
    rw [hnil] at hne
    simp at hne

/-- Helper: anatomy of a valid decimal token: optional sign, integer
digits, optional point and fraction digits, optional exponent part. -/
theorem validDecTok_anatomy (l : List Char) (hv : validDecTok l = true) :
    ∃ sg ip dp ep,
      l = sg ++ (ip ++ (dp ++ ep)) ∧
      (sg = [] ∨ ∃ sc, sg = [sc] ∧ isSignCh sc = true) ∧
      ip.all Char.isDigit = true ∧
      ((dp = [] ∧ ip ≠ []) ∨ ∃ fp, dp = '.' :: fp ∧ fp.all Char.isDigit = true) ∧
      (ep = [] ∨ ∃ mk es ed, ep = mk :: (es ++ ed) ∧ isExpCh mk = true ∧
        (es = [] ∨ ∃ sc, es = [sc] ∧ isSignCh sc = true) ∧
        ed ≠ [] ∧ ed.all Char.isDigit = true) := by
  obtain ⟨hrec, hsg⟩ := splitSignL_spec l
  rw [validDecTok] at hv
  set sg := (splitSignL l).1 with hsgdef
  set m := (splitSignL l).2 with hmdef
  set ip := m.takeWhile Char.isDigit with hipdef
  have hipall : ip.all Char.isDigit = true := all_takeWhile_self Char.isDigit m
  have hmsplit : ip ++ m.dropWhile Char.isDigit = m :=
    List.takeWhile_append_dropWhile _ _
  cases hr1 : m.dropWhile Char.isDigit with
  | nil =>
    rw [hr1] at hv hmsplit
    rw [List.append_nil] at hmsplit
    simp only [validAfterInt] at hv
    refine ⟨sg, ip, [], [], ?_, hsg, hipall, Or.inl ⟨rfl, ?_⟩, Or.inl rfl⟩
    · simp only [List.nil_append, List.append_nil]
      rw [hmsplit, hrec]
    · intro hnil
      rw [hnil] at hv
      simp at hv
  | cons c r2 =>
    rw [hr1] at hv hmsplit
    simp only [validAfterInt] at hv
    set fp := r2.takeWhile Char.isDigit with hfpdef
    set r3 := r2.dropWhile Char.isDigit with hr3def
    have hfpall : fp.all Char.isDigit = true := all_takeWhile_self Char.isDigit r2
    have hr2split : fp ++ r3 = r2 := List.takeWhile_append_dropWhile _ _
    by_cases hc : c = '.'
    · rw [if_pos hc, Bool.and_eq_true] at hv
      subst hc
      refine ⟨sg, ip, '.' :: fp, r3, ?_, hsg, hipall,
        Or.inr ⟨fp, rfl, hfpall⟩, validExpTail_anatomy _ hv.2⟩
      rw [List.cons_append, hr2split, hmsplit, hrec]
    · rw [if_neg hc, Bool.and_eq_true] at hv
      refine ⟨sg, ip, [], c :: r2, ?_, hsg, hipall, Or.inl ⟨rfl, ?_⟩,
        validExpTail_anatomy _ hv.2⟩
      · rw [List.nil_append, hmsplit, hrec]
      · intro hnil
        have h1 := hv.1
        rw [hnil] at h1
        simp at h1

/-- Helper: the hex-switch is bypassed and the digit phases consume
exactly the prepared body. -/
theorem scanAfterSign_exact (m tl : List Char)
    (hscan : scanNumTail isScanDigit isExpCh (m ++ tl) = (m, tl))
    (hhex : ∀ c₁ r, m ++ tl = '0' :: c₁ :: r → isXCh c₁ = false) :
    scanAfterSign (m ++ tl) = (m, tl) := by
  rcases hl : m ++ tl with _ | ⟨c₀, _ | ⟨c₁, r⟩⟩
  · rw [hl] at hscan
    simpa [scanAfterSign] using hscan
  · rw [hl] at hscan
    simpa [scanAfterSign] using hscan
  · rw [hl] at hscan
    have hx : (c₀ = '0' && isXCh c₁) = false := by
      by_cases h0 : c₀ = '0'
      · subst h0
        simp [hhex c₁ r hl]
      · simp [h0]
    simpa [scanAfterSign, hx] using hscan

/-- Helper: the NaN/sign/Inf phases pass a prepared sign and body through
to the number scan. -/
theorem scanSignInfBody_exact (sg m tl : List Char)
    (hsg : sg = [] ∨ ∃ sc, sg = [sc] ∧ isSignCh sc = true)
    (hm : ∃ c r, m = c :: r ∧ (c.isDigit = true ∨ c = '.'))
    (hscan : scanAfterSign (m ++ tl) = (m, tl)) :
    scanSignInfBody ((sg ++ m) ++ tl) = (sg ++ m, tl) := by
  obtain ⟨c, r, rfl, hc⟩ := hm
  have hcsign : isSignCh c = false := by
    rcases hc with hd | rfl
    · exact digit_not_sign c hd
    · decide
  have hich : isICh c = false := by
    rcases hc with hd | rfl
    · exact digit_not_i c hd
    · decide
  have hsplit : splitSignL ((sg ++ (c :: r)) ++ tl) = (sg, (c :: r) ++ tl) := by
    rw [List.append_assoc]
    refine splitSignL_exact sg ((c :: r) ++ tl) hsg ?_
    simpa [List.cons_append] using head_all_cons isSignCh c (r ++ tl) hcsign
  simp only [List.cons_append] at hscan
  simp only [scanSignInfBody, hsplit, List.cons_append]
  simp [hich, hscan]

/-- Helper: the NaN check passes a valid token through to the sign/body
scan. -/
theorem floatToken_body_exact (sg m tl : List Char)
    (hsg : sg = [] ∨ ∃ sc, sg = [sc] ∧ isSignCh sc = true)
    (hm : ∃ c r, m = c :: r ∧ (c.isDigit = true ∨ c = '.'))
    (hbody : scanSignInfBody ((sg ++ m) ++ tl) = (sg ++ m, tl)) :
    floatToken ((sg ++ m) ++ tl) = (sg ++ m, tl) := by
  obtain ⟨c, r, rfl, hc⟩ := hm
  have hnch : isNCh c = false := by
    rcases hc with hd | rfl
    · exact digit_not_n c hd
    · decide
  rcases hsg with rfl | ⟨sc, rfl, hsc⟩
  · simp only [List.nil_append, List.cons_append] at hbody ⊢
    simp [floatToken, hnch, hbody]
  · have hnsc : isNCh sc = false := sign_not_n sc hsc
    simp only [List.cons_append, List.nil_append] at hbody ⊢
    simp [floatToken, hnsc, hbody]

/-- Helper: the float scanner consumes exactly a valid decimal token and
leaves a non-extending tail untouched. -/
theorem floatToken_valid_exact (pfx tl : List Char) (hv : validDecTok pfx = true)
    (ht : ∀ c r', tl = c :: r' → extendsTok pfx c = false) :
    floatToken (pfx ++ tl) = (pfx, tl) := by
  obtain ⟨sg, ip, dp, ep, rfl, hsg, hip, hdp, hep⟩ := validDecTok_anatomy pfx hv
  have hmhead := anatomy_body_head ip dp ep hip hdp
  have hpfxsplit : splitSignL (sg ++ (ip ++ (dp ++ ep))) = (sg, ip ++ (dp ++ ep)) := by
    refine splitSignL_exact sg (ip ++ (dp ++ ep)) hsg ?_
    obtain ⟨c, r, heq, hc⟩ := hmhead
    rw [heq]
    refine head_all_cons isSignCh c r ?_
    rcases hc with hd | rfl
    · exact digit_not_sign c hd
    · decide
  have htl1 : (tl.head?.all fun c => !isScanDigit c) = true := by
    cases tl with
    | nil => rfl
    | cons c r' => exact head_all_cons isScanDigit c r' (extendsTok_elim1 _ c (ht c r' rfl))
  have htl2 : ep = [] → (tl.head?.all fun c => !isExpCh c) = true := by
    intro hep0
    subst hep0
    have hipe : ip.any isExpCh = false :=
      any_eq_false_of_all_not digit_not_exp ip hip
    have hsge : sg.any isExpCh = false := by
      rcases hsg with rfl | ⟨sc, rfl, hsc⟩
      · rfl
      · simp [sign_not_exp sc hsc]
    have hdpe : dp.any isExpCh = false := by
      rcases hdp with ⟨rfl, -⟩ | ⟨fp, rfl, hfp⟩
      · rfl
      · have hfpe : fp.any isExpCh = false :=
          any_eq_false_of_all_not digit_not_exp fp hfp
        simp [hfpe, isExpCh]
    have hnoexp : ((sg ++ (ip ++ (dp ++ ([] : List Char)))).any isExpCh) = false := by
      simp [List.any_append, hsge, hipe, hdpe]
    cases tl with
    | nil => rfl
    | cons c r' =>
      exact head_all_cons isExpCh c r' (extendsTok_elim2 _ c (ht c r' rfl) hnoexp)
  have htl3 : ep = [] → dp = [] → ∀ c r', tl = c :: r' → c ≠ '.' := by
    intro hep0 hdp0 c r' hc
    subst hep0
    subst hdp0
    have hipe : ip.any isExpCh = false :=
      any_eq_false_of_all_not digit_not_exp ip hip
    have hsge : sg.any isExpCh = false := by
      rcases hsg with rfl | ⟨sc, rfl, hsc⟩
      · rfl
      · simp [sign_not_exp sc hsc]
    have hnoexp : ((sg ++ (ip ++ (([] : List Char) ++ ([] : List Char)))).any isExpCh)
        = false := by
      simp [List.any_append, hsge, hipe]
    have hipd : ip.any (fun x => x = '.') = false :=
      any_eq_false_of_all_not (fun d hd => by simp [digit_not_dot d hd]) ip hip
    have hsgd : sg.any (fun x => x = '.') = false := by
      rcases hsg with rfl | ⟨sc, rfl, hsc⟩
      · rfl
      · simp [sign_not_dot sc hsc]
    have hnodot : ((sg ++ (ip ++ (([] : List Char) ++ ([] : List Char)))).any
        (fun x => x = '.')) = false := by
      simp [List.any_append, hsgd, hipd]
    exact extendsTok_elim3 _ c (ht c r' hc) hnoexp hnodot
  have hscan1 := scanNumTail_exact ip dp ep tl hip hdp hep htl1 htl2 htl3
  have hscan1' : scanNumTail isScanDigit isExpCh ((ip ++ (dp ++ ep)) ++ tl)
      = (ip ++ (dp ++ ep), tl) := by
    rw [List.append_assoc, List.append_assoc]
    exact hscan1
  have hhex : ∀ c₁ r, (ip ++ (dp ++ ep)) ++ tl = '0' :: c₁ :: r → isXCh c₁ = false := by
    intro c₁ r hEq
    rcases ip with _ | ⟨i0, ip'⟩
    · rcases hdp with ⟨-, hne⟩ | ⟨fp, rfl, -⟩
      · exact absurd rfl hne
      · simp only [List.nil_append, List.cons_append] at hEq
        exact absurd (List.cons.inj hEq).1 (by decide)
    · rcases ip' with _ | ⟨i1, ip''⟩
      · rcases hdp with ⟨rfl, -⟩ | ⟨fp, rfl, -⟩
        · rcases hep with rfl | ⟨mk, es, ed, rfl, hmk, hes, hne', hed⟩
          · simp only [List.nil_append, List.append_nil, List.cons_append,
              List.singleton_append] at hEq
            obtain ⟨h0, htl'⟩ := List.cons.inj hEq
            subst h0
            refine extendsTok_elim4 _ c₁ (ht c₁ r htl') ?_
            rw [hpfxsplit]
            simp
          · simp only [List.nil_append, List.cons_append, List.singleton_append] at hEq
            obtain ⟨h0, hrest⟩ := List.cons.inj hEq
            obtain ⟨hmkc, -⟩ := List.cons.inj hrest
            exact hmkc ▸ exp_not_x mk hmk
        · simp only [List.nil_append, List.cons_append, List.singleton_append] at hEq
          obtain ⟨h0, hrest⟩ := List.cons.inj hEq
          obtain ⟨hdotc, -⟩ := List.cons.inj hrest
          exact hdotc ▸ (by decide : isXCh '.' = false)
      · simp only [List.cons_append] at hEq
        obtain ⟨-, hrest⟩ := List.cons.inj hEq
        obtain ⟨h1c, -⟩ := List.cons.inj hrest
        have hd1 : i1.isDigit = true := by
          simp only [List.all_cons, Bool.and_eq_true] at hip
          exact hip.2.1
        exact h1c ▸ digit_not_x i1 hd1
  have hafter := scanAfterSign_exact (ip ++ (dp ++ ep)) tl hscan1' hhex
  have hbody := scanSignInfBody_exact sg (ip ++ (dp ++ ep)) tl hsg hmhead hafter
  exact floatToken_body_exact sg (ip ++ (dp ++ ep)) tl hsg hmhead hbody

/-- Helper: a valid token starts with a sign, a digit or the decimal
point — never with a blank or a newline. -/
theorem validDecTok_head_not_space (pfx : List Char) (hv : validDecTok pfx = true) :
    ∃ c r, pfx = c :: r ∧ isBlank c = false ∧ isNl c = false := by
  obtain ⟨sg, ip, dp, ep, rfl, hsg, hip, hdp, hep⟩ := validDecTok_anatomy pfx hv
  rcases hsg with rfl | ⟨sc, rfl, hsc⟩
  · obtain ⟨c, r, heq, hc⟩ := anatomy_body_head ip dp ep hip hdp
    refine ⟨c, r, by simpa using heq, ?_, ?_⟩
    · rcases hc with hd | rfl
      · exact digit_not_blank c hd
      · decide
    · rcases hc with hd | rfl
      · exact digit_not_nl c hd
      · decide
  · exact ⟨sc, ip ++ (dp ++ ep), by simp, sign_not_blank sc hsc, sign_not_nl sc hsc⟩

/-- C10 counterexample: `"1.5"` is a valid decimal prefix and `'e'` is a
non-numeric character, yet `parsePrice "1.5e"` fails — the greedy scanner
swallows the exponent marker and the resulting token `1.5e` is malformed
— refuting the claim that parsing fails only when no numeric prefix
exists. -/
theorem C10_counterexample :
    validDecTok (String.toList ("1.5")) = true ∧
    String.toList ("1.5e") = String.toList ("1.5") ++ String.toList ("e") ∧
    (String.toList ("e")).all (fun c => !c.isDigit) = true ∧
    parsePrice ("1.5") = some (Rat.divInt 3 2) ∧
    parsePrice ("1.5e") = none := by decide

/-- C10 amended: for every valid decimal token and every trailing string
whose first character does not extend the scanned token (it is not a
digit or digit-group underscore, not an exponent marker when the token
has none, not a decimal point when the token has neither point nor
exponent, and not `x`/`X` after a bare signed zero), price parsing
succeeds with exactly the token's value; a trailing character that does
extend the token — such as the `'e'` of `"1.5e"` — can instead make
parsing fail. -/
theorem C10_amended_trailing_ignored (pfx tl : List Char)
    (hv : validDecTok pfx = true)
    (hopt : (tl.head?.all fun c => !extendsTok pfx c) = true) :
    parsePrice (String.mk (pfx ++ tl)) = some (tokValue pfx) := by
  have ht : ∀ c r', tl = c :: r' → extendsTok pfx c = false := by
    intro c r' h
    rw [h] at hopt
    simpa using hopt
  have hft := floatToken_valid_exact pfx tl hv ht
  have hskip : skipSpaceScan (pfx ++ tl) = some (pfx ++ tl) := by
    obtain ⟨c, r, heq, hb, hn⟩ := validDecTok_head_not_space pfx hv
    rw [heq, List.cons_append]
    simp [skipSpaceScan, hb, hn]
  simp [parsePrice, String.toList, hskip, hft, hv]

/-- C10 witness: the non-extending trailing text `abc` after the valid
token `1.5` is ignored and the prefix value is returned. -/
theorem C10_witness :
    parsePrice (String.mk (String.toList ("1.5") ++ String.toList ("abc")))
      = some (Rat.divInt 3 2) := by
  have h := C10_amended_trailing_ignored (String.toList ("1.5"))
    (String.toList ("abc")) (by decide) (by decide)
  rw [h]
  decide

end BingXGo
